import Mathlib

/-!
Shallow embedding of the JavaLab backend (src/backend/server.js): the
compile–execute–cleanup pipeline of the `POST /compile` route, together with
its helper functions `compileJava`, `executeJava`, `ensureMainClass`,
`containsMaliciousCode`, `formatCompilationError`, `cleanupFile` and
`cleanupTempFiles`.  JavaScript strings are modelled as Lean `String`
(a list of characters; JS `.length` counts UTF-16 units, which coincides with
the character count on the material inputs here), filesystem and process
interactions are modelled as an explicit effect trace, and the results of the
external `javac`/`java` subprocesses are supplied by an environment record.
-/

namespace JavaLab

/-! ## Basic string machinery (JS `String.prototype.includes`, regex pieces) -/

/-- The whitespace characters matched by the JavaScript regex class `\s`. -/
def jsWhitespaceChars : List Char :=
  [' ', '\t', '\n', '\r', '\x0b', '\x0c', '\u00A0', '\u1680',
   '\u2000', '\u2001', '\u2002', '\u2003', '\u2004', '\u2005', '\u2006',
   '\u2007', '\u2008', '\u2009', '\u200A', '\u2028', '\u2029', '\u202F',
   '\u205F', '\u3000', '\uFEFF']

/-- JS regex `\s` as a character predicate. -/
def jsWhitespace (c : Char) : Bool := jsWhitespaceChars.contains c

/-- Substring test on character lists: `needle` occurs somewhere in `hay`. -/
def isSubstr (needle hay : List Char) : Bool :=
  hay.tails.any fun t => needle.isPrefixOf t

/-- JS `hay.includes(needle)`. -/
def containsSub (hay needle : String) : Bool := isSubstr needle.toList hay.toList

/-! ## SecurityFilter: `containsMaliciousCode` (server.js lines 216–242)

Each regex in `dangerousPatterns` is either a literal string (all regex
metacharacters in the source are escaped) or a literal followed by `\s` /
`\s*\(`; the patterns are rebuilt on every call, so `.test` is stateless. -/

/-- Regex `native\s`: the literal `native` followed by a whitespace character. -/
def matchAtNativeWs (t : List Char) : Bool :=
  "native".toList.isPrefixOf t &&
    (match t.drop 6 with
     | c :: _ => jsWhitespace c
     | [] => false)

def matchNativeWs (l : List Char) : Bool := l.tails.any matchAtNativeWs

/-- Regex `synchronized\s*\(`: the literal, optional whitespace, then `(`. -/
def matchAtSyncParen (t : List Char) : Bool :=
  "synchronized".toList.isPrefixOf t &&
    (match (t.drop 12).dropWhile jsWhitespace with
     | '(' :: _ => true
     | _ => false)

def matchSyncParen (l : List Char) : Bool := l.tails.any matchAtSyncParen

/-- server.js `containsMaliciousCode`: true iff any dangerous pattern matches.
A pure function of the source text. -/
def containsMaliciousCode (code : String) : Bool :=
  containsSub code "Runtime.getRuntime()" ||
  containsSub code "ProcessBuilder" ||
  containsSub code "exec(" ||
  containsSub code "System.exit(" ||
  containsSub code "Thread.sleep(" ||
  containsSub code "FileWriter" ||
  containsSub code "FileOutputStream" ||
  containsSub code "Socket(" ||
  containsSub code "ServerSocket(" ||
  containsSub code "Class.forName" ||
  containsSub code "javax.script" ||
  matchNativeWs code.toList ||
  matchSyncParen code.toList ||
  containsSub code "wait(" ||
  containsSub code "notify("

/-! ## SourceNormalizer: `ensureMainClass` (server.js lines 199–213) -/

/-- Text of the wrapper template before the interpolated user code. -/
def mainWrapperPrefix : String :=
  "public class Main \x7b\n    public static void main(String[] args) \x7b\n        // User code starts here\n"

/-- Text of the wrapper template after the interpolated user code. -/
def mainWrapperSuffix : String :=
  "\n        // User code ends here\n    \x7d\n\x7d"

/-- server.js `ensureMainClass`: pass the code through if it already mentions
a `Main` class, otherwise wrap it verbatim in the entry-point template. -/
def ensureMainClass (code : String) : String :=
  if containsSub code "public class Main" || containsSub code "class Main" then code
  else mainWrapperPrefix ++ code ++ mainWrapperSuffix

/-! ## ArtifactStore: scratch directory (server.js lines 19–22)

`tempDir = path.join(os.tmpdir(), 'javalab-temp')`; on the target platform
(Linux with `TMPDIR` unset, the deployment the code's own `/tmp` regex in
`formatCompilationError` assumes) `os.tmpdir()` is `/tmp`. -/

def tempDir : String := "/tmp/javalab-temp"

/-! ## Error formatting: `formatCompilationError` (server.js lines 245–268) -/

/-- JS regex class `[^:\s]`: a character that may extend a path match. -/
def pathChar (c : Char) : Bool := !(c == ':' || jsWhitespace c)

/-- The literal part of the regex `\/tmp\/[^:\s]+`. -/
def tmpPat : List Char := ['/', 't', 'm', 'p', '/']

/-- Whether the regex `\/tmp\/[^:\s]+` matches at the start of `l`. -/
def startsTmpPath (l : List Char) : Bool :=
  decide (l.take 5 = tmpPat) &&
    (match l.drop 5 with
     | c :: _ => pathChar c
     | [] => false)

/-- The replacement text `'Main.java'` of the path-stripping replace. -/
def mainJavaL : List Char := "Main.java".toList

theorem length_dropWhile_le (p : Char → Bool) (l : List Char) :
    (l.dropWhile p).length ≤ l.length := by
  induction l with
  | nil => simp [List.dropWhile]
  | cons c l ih =>
    simp only [List.dropWhile]
    split
    · exact Nat.le_trans ih (Nat.le_succ _)
    · simp

/-- JS `str.replace(/\/tmp\/[^:\s]+/g, 'Main.java')`: scan left to right; at a
match, emit the replacement and continue after the maximal `[^:\s]+` run. -/
def replaceTmpPaths : List Char → List Char
  | [] => []
  | c :: l =>
    if startsTmpPath (c :: l) then
      mainJavaL ++ replaceTmpPaths ((l.drop 4).dropWhile pathChar)
    else
      c :: replaceTmpPaths l
termination_by l => l.length
decreasing_by
  · have h1 : ((l.drop 4).dropWhile pathChar).length ≤ (l.drop 4).length :=
      length_dropWhile_le _ _
    have h2 : (l.drop 4).length ≤ l.length := by
      rw [List.length_drop]; omega
    simp only [List.length_cons]; omega
  · simp

/-- Character comparison used by a case-insensitive (`i`-flagged) JS regex. -/
def ciEq (p c : Char) : Bool := p.toLower == c.toLower

/-- Character comparison used by a case-sensitive JS regex. -/
def csEq (p c : Char) : Bool := p == c

/-- Whether a literal pattern matches at the start of the input, under the
character comparison `eqc`. -/
def matchesPat (eqc : Char → Char → Bool) : List Char → List Char → Bool
  | [], _ => true
  | _ :: _, [] => false
  | p :: ps, c :: cs => eqc p c && matchesPat eqc ps cs

/-- JS `str.replace(pat-regex/g, rep)` for a literal pattern `pat`: scan left
to right; at a match, emit `rep` and continue after the matched text. -/
def replacePat (eqc : Char → Char → Bool) (pat rep : List Char) :
    List Char → List Char
  | [] => []
  | c :: l =>
    if matchesPat eqc pat (c :: l) then
      rep ++ replacePat eqc pat rep (l.drop (pat.length - 1))
    else
      c :: replacePat eqc pat rep l
termination_by l => l.length
decreasing_by
  · have h1 : (l.drop (pat.length - 1)).length ≤ l.length := by
      rw [List.length_drop]; omega
    simp only [List.length_cons]; omega
  · simp

def headerL : List Char :=
  "❌ Compilation Failed\n════════════════════════════════════════\n\n".toList

def tipsL : List Char :=
  "\n\n💡 Tips:\n• Check for missing semicolons\n• Ensure braces are balanced\n• Verify variable declarations\n• Check method signatures".toList

/-- server.js `formatCompilationError` on character lists: strip `/tmp/...`
paths, prettify `error:` / `warning:` / `Main.java:`, add header and tips. -/
def formatCompilationErrorL (err : List Char) : List Char :=
  headerL ++
    (replacePat csEq "Main.java:".toList "Line ".toList
      (replacePat ciEq "warning:".toList "⚠️ Warning:".toList
        (replacePat ciEq "error:".toList "❌ Error:".toList
          (replaceTmpPaths err)))) ++
    tipsL

/-- server.js `formatCompilationError` on strings. -/
def formatCompilationError (err : String) : String :=
  ⟨formatCompilationErrorL err.toList⟩

/-! ## Compiler: `compileJava` (server.js lines 151–169)

`exec` invokes `javac` with a 10 s bound and always resolves the promise from
its callback: `error` non-null means failure, with text
`stderr || stdout || error.message`. -/

structure CompileCb where
  error : Option String
  stdout : String
  stderr : String
deriving DecidableEq

structure CompileRes where
  success : Bool
  errText : String
deriving DecidableEq

def compileJavaResolve (cb : CompileCb) : CompileRes :=
  match cb.error with
  | some msg =>
      { success := false,
        errText := if cb.stderr ≠ "" then cb.stderr
                   else if cb.stdout ≠ "" then cb.stdout else msg }
  | none => { success := true, errText := "" }

/-! ## Runner: `executeJava` (server.js lines 172–196)

`exec(command, { timeout: 5000 }, cb)` runs `java` in the scratch directory.
Node's platform semantics: when `options.timeout` expires, the child is sent
SIGTERM (so it does not survive the call) and the callback `cb` is invoked
with an error whose `killed` flag is set; the callback is also invoked on
normal or non-zero exit.  The `ChildProcess` interface emits the events
`spawn`, `exit` and `close` over the child's lifetime — there is no
`'timeout'` event, so the listener `executeJava` registers with
`childProcess.on('timeout', ...)` can never fire. -/

def executionTimeoutMs : Nat := 5000

/-- One execution of a compiled program: how long it would run to completion,
whether it would exit non-zero, and the output it produces (as collected by
the callback; partial if the process was killed at the timeout). -/
structure ExecScenario where
  durationMs : Nat
  exitNonZero : Bool
  stdout : String
  stderr : String
deriving DecidableEq

/-- The events Node emits on the `ChildProcess` in scenario `s` (never
`'timeout'`, whether or not the bound was exceeded). -/
def childProcessEvents (s : ExecScenario) : List String :=
  if executionTimeoutMs < s.durationMs then ["spawn", "exit", "close"]
  else ["spawn", "exit", "close"]

/-- Whether Node's `options.timeout` mechanism killed the subprocess. -/
def execKilledByTimeout (s : ExecScenario) : Bool :=
  decide (executionTimeoutMs < s.durationMs)

/-- Arguments Node passes to the exec callback: `errored` is true on a
non-zero exit or a timeout kill. -/
structure ExecCbArgs where
  errored : Bool
  stdout : String
  stderr : String

def execCallbackArgs (s : ExecScenario) : ExecCbArgs :=
  { errored := execKilledByTimeout s || s.exitNonZero,
    stdout := s.stdout, stderr := s.stderr }

structure RunResult where
  output : String
  timedOut : Bool
deriving DecidableEq

/-- server.js `executeJava`: the promise resolves from whichever fires — the
`'timeout'` listener (`{ output: '', timedOut: true }`, only if a `'timeout'`
event were emitted) or the exec callback, which ignores `error` and resolves
`{ output: stdout || stderr, timedOut: false }`. -/
def executeJava (s : ExecScenario) : RunResult :=
  if (childProcessEvents s).contains "timeout" then
    { output := "", timedOut := true }
  else
    let cb := execCallbackArgs s
    { output := if cb.stdout ≠ "" then cb.stdout else cb.stderr,
      timedOut := false }

/-! ## Pipeline: the `POST /compile` route (server.js lines 48–146)

The route is modelled as a function of the request's `code` field and an
environment carrying the identifier components (`Date.now()`, the random
suffix), the external subprocess results, and injection points for the
unexpected exceptions the route's `catch` handles: `fs.writeFileSync`
throwing, and the execution step throwing (e.g. `childProcess.stdin` being
unavailable after a failed spawn, making `childProcess.stdin.end()` throw
inside the promise executor).  Filesystem and process actions are recorded as
an effect trace; a `cleanupFile` call is recorded as `Effect.unlink` (it
deletes the file if present and swallows any deletion error). -/

inductive JVal
  | b (v : Bool)
  | s (v : String)
  | n (v : Nat)
deriving DecidableEq

inductive Effect
  | write (path contents : String)
  | spawn (cmd : String)
  | unlink (path : String)
deriving DecidableEq

structure HandlerOut where
  status : Nat
  body : List (String × JVal)
  effects : List Effect
deriving DecidableEq

/-- The request body's `code` field: absent (or `null`), present but not a
string, or a string. -/
inductive CodeField
  | missing
  | nonString
  | str (s : String)
deriving DecidableEq

structure Env where
  nowTs : String
  randSuffix : String
  writeThrows : Bool
  writeErrMsg : String
  compileCb : CompileCb
  execThrows : Bool
  execErrMsg : String
  execScenario : ExecScenario
  elapsedMs : Nat
deriving DecidableEq

def compileCommand (filePath : String) : String :=
  "javac -d " ++ tempDir ++ " \"" ++ filePath ++ "\""

def execCommand (className : String) : String :=
  "cd \"" ++ tempDir ++ "\" && java " ++ className

def noCodeBody : List (String × JVal) :=
  [("success", .b false), ("error", .s "No code provided"),
   ("output", .s "❌ Error: No Java code to compile")]

def tooLongBody : List (String × JVal) :=
  [("success", .b false), ("error", .s "Code too long (max 10,000 characters)"),
   ("output", .s "❌ Error: Code exceeds maximum length (10,000 characters)")]

def maliciousBody : List (String × JVal) :=
  [("success", .b false), ("error", .s "Potentially malicious code detected"),
   ("output", .s "❌ Security Error: Code contains restricted patterns")]

def serverErrorBody (msg : String) : List (String × JVal) :=
  [("success", .b false), ("error", .s msg),
   ("output", .s ("❌ Server Error: " ++ msg ++ "\n\nPlease try again or contact support."))]

def timeoutOutput : String :=
  "⏰ Error: Program execution timed out (5 seconds)\n\nPossible reasons:\n• Infinite loop\n• Waiting for input (Scanner not supported)\n• Too much computation\n\nTip: Use simple loops and avoid infinite loops."

/-- The unique per-request identifier
`Main_${Date.now()}_${Math.random().toString(36).substr(2, 9)}`. -/
def requestFilename (env : Env) : String :=
  "Main_" ++ env.nowTs ++ "_" ++ env.randSuffix

def javaFilePathOf (env : Env) : String :=
  tempDir ++ "/" ++ requestFilename env ++ ".java"

def classFilePathOf (env : Env) : String :=
  tempDir ++ "/" ++ requestFilename env ++ ".class"

/-- The try block of the route (server.js lines 81–135, with the `catch` of
lines 136–145): write the normalized source, wait on `javac`; on compile
failure clean up the source and respond; otherwise wait on `java`, clean up
both expected artifact paths, and respond according to `timedOut`; an
exception reaching the `catch` yields the 500 response with no cleanup. -/
def tryBlock (s : String) (env : Env) : HandlerOut :=
  if env.writeThrows then
    { status := 500, body := serverErrorBody env.writeErrMsg, effects := [] }
  else
    let cres := compileJavaResolve env.compileCb
    let effC := [Effect.write (javaFilePathOf env) (ensureMainClass s),
                 Effect.spawn (compileCommand (javaFilePathOf env))]
    if cres.success = false then
      { status := 200,
        body := [("success", .b false),
                 ("output", .s (formatCompilationError cres.errText)),
                 ("executionTime", .n env.elapsedMs)],
        effects := effC ++ [Effect.unlink (javaFilePathOf env)] }
    else if env.execThrows then
      { status := 500, body := serverErrorBody env.execErrMsg,
        effects := effC ++ [Effect.spawn (execCommand (requestFilename env))] }
    else
      let eres := executeJava env.execScenario
      let effE := effC ++ [Effect.spawn (execCommand (requestFilename env)),
                           Effect.unlink (javaFilePathOf env),
                           Effect.unlink (classFilePathOf env)]
      if eres.timedOut then
        { status := 200,
          body := [("success", .b false), ("output", .s timeoutOutput),
                   ("executionTime", .n env.elapsedMs)],
          effects := effE }
      else
        { status := 200,
          body := [("success", .b true), ("output", .s eres.output),
                   ("executionTime", .n env.elapsedMs)],
          effects := effE }

/-- The `POST /compile` route.  Validation (missing / non-string / empty code
via JS falsiness, then the 10,000-character bound, then the security filter)
happens before any effect; only then does the try block run. -/
def handler (code : CodeField) (env : Env) : HandlerOut :=
  match code with
  | .missing => { status := 400, body := noCodeBody, effects := [] }
  | .nonString => { status := 400, body := noCodeBody, effects := [] }
  | .str s =>
    if s = "" then { status := 400, body := noCodeBody, effects := [] }
    else if 10000 < s.length then { status := 400, body := tooLongBody, effects := [] }
    else if containsMaliciousCode s then { status := 400, body := maliciousBody, effects := [] }
    else tryBlock s env

/-! ## Reaper: `cleanupTempFiles` (server.js lines 282–302)

Lists the scratch directory and unlinks every entry whose age exceeds
`maxAge`; each entry's `statSync`/`unlinkSync` pair is wrapped in a
try/catch whose handler ignores the error, so an entry that vanished between
listing and stat (modelled by `present := false`) is skipped silently. -/

def maxAgeMs : Nat := 5 * 60 * 1000

structure TempEntry where
  name : String
  mtimeMs : Nat
  present : Bool
deriving DecidableEq

/-- Whether the sweep unlinks entry `e` at time `now`:
`now - stats.mtimeMs > maxAge`, for an entry that can still be stat'ed. -/
def sweepRemoves (now : Nat) (e : TempEntry) : Bool :=
  e.present && decide (maxAgeMs < now - e.mtimeMs)

/-- server.js `cleanupTempFiles`: the directory contents after one sweep at
time `now` — the entries that still exist and were not unlinked. -/
def cleanupTempFiles (now : Nat) (entries : List TempEntry) : List TempEntry :=
  entries.filter fun e => e.present && !sweepRemoves now e

/-! ## Auxiliary definitions for the verification -/

/-- Whether the text contains a scratch-directory path remnant: an occurrence
of `/tmp/` followed by a path character (every path under `tempDir` has this
shape, continuing `javalab-temp/...`). -/
def hasTmpPath : List Char → Bool
  | [] => false
  | c :: l => startsTmpPath (c :: l) || hasTmpPath l

/-- The characters a `/tmp/` occurrence may be followed by without forming a
path: exactly those the regex class `[^:\s]` excludes. -/
def badPathChars : List Char := ':' :: jsWhitespaceChars

def isWriteEffect : Effect → Bool
  | .write _ _ => true
  | _ => false

def isUnlinkEffect : Effect → Bool
  | .unlink _ => true
  | _ => false

/-- A benign environment: valid identifier parts, successful compile, quick
successful run, no exceptions. -/
def env0 : Env :=
  { nowTs := "100", randSuffix := "abc",
    writeThrows := false, writeErrMsg := "",
    compileCb := { error := none, stdout := "", stderr := "" },
    execThrows := false, execErrMsg := "",
    execScenario := { durationMs := 10, exitNonZero := false, stdout := "ok", stderr := "" },
    elapsedMs := 3 }

/-- An environment in which the execution step throws an unexpected exception
(e.g. the spawn failed under fd exhaustion and `childProcess.stdin.end()`
raised inside the promise executor), exercising the route's `catch`. -/
def envExc : Env := { env0 with execThrows := true }

/-- A valid program whose `main` loops forever. -/
def loopSnippet : String :=
  "class Main \x7b public static void main(String[] args) \x7b while(true) \x7b\x7d \x7d \x7d"

/-- The execution scenario of `loopSnippet`: still running at the 5 s bound,
no output collected when Node kills it. -/
def loopScenario : ExecScenario :=
  { durationMs := 6000, exitNonZero := false, stdout := "", stderr := "" }

def envLoop : Env := { env0 with execScenario := loopScenario }

/-- The spec's worked example input: bare statements, no class wrapper. -/
def helloSnippet : String := "System.out.println(\"hi\");"

/-- A run that crashes quickly with an uncaught exception: empty stdout, the
stack trace on stderr, non-zero exit. -/
def envCrash : Env :=
  { env0 with execScenario :=
      { durationMs := 100, exitNonZero := true, stdout := "",
        stderr := "Exception in thread \"main\" java.lang.ArithmeticException: / by zero" } }

/-- A scratch directory for the Reaper: one stale entry, one fresh entry, one
entry that vanished between `readdirSync` and `statSync`. -/
def reaperEntries : List TempEntry :=
  [{ name := "Main_1_a.java", mtimeMs := 0, present := true },
   { name := "Main_2_b.java", mtimeMs := 900000, present := true },
   { name := "Main_3_c.java", mtimeMs := 0, present := false }]

/-! # Theorems -/

theorem isSubstr_spec (needle hay : List Char) :
    isSubstr needle hay = true ↔ needle <:+: hay := by
  unfold isSubstr
  rw [List.any_eq_true]
  constructor
  · rintro ⟨t, ht, hp⟩
    rw [List.mem_tails] at ht
    rw [List.isPrefixOf_iff_prefix] at hp
    exact List.infix_iff_prefix_suffix.mpr ⟨t, hp, ht⟩
  · intro h
    obtain ⟨t, hp, ht⟩ := List.infix_iff_prefix_suffix.mp h
    exact ⟨t, (List.mem_tails t hay).mpr ht, List.isPrefixOf_iff_prefix.mpr hp⟩

/-- The check for `'public class Main'` is subsumed by the check for
`'class Main'`. -/
theorem containsSub_classMain_of_public (code : String)
    (h : containsSub code "public class Main" = true) :
    containsSub code "class Main" = true := by
  rw [containsSub, isSubstr_spec] at h ⊢
  have hsub : "class Main".toList <:+: "public class Main".toList :=
    (isSubstr_spec _ _).mp rfl
  exact hsub.trans h

/-- C8: `ensureMainClass` is the identity on every source text that contains
the canonical class name `class Main` (the textual detection the code uses),
and wraps every other source text verbatim — between a fixed prefix and a
fixed suffix forming the entry-point template — otherwise. -/
theorem ensureMainClass_spec (code : String) :
    (containsSub code "class Main" = true → ensureMainClass code = code) ∧
    (containsSub code "class Main" = false →
      ensureMainClass code = mainWrapperPrefix ++ code ++ mainWrapperSuffix) := by
  constructor
  · intro h
    unfold ensureMainClass
    rw [h]
    simp
  · intro h
    unfold ensureMainClass
    rw [h]
    have hpub : containsSub code "public class Main" = false := by
      cases hp : containsSub code "public class Main" with
      | false => rfl
      | true => rw [containsSub_classMain_of_public code hp] at h; exact h
    rw [hpub]
    simp

/-- Witness for C8: a program declaring `class Main` passes through
unchanged; bare statements are wrapped in the template. -/
theorem ensureMainClass_spec_witness :
    ensureMainClass "class Main \x7b\x7d" = "class Main \x7b\x7d" ∧
    ensureMainClass "int x = 1;" =
      mainWrapperPrefix ++ "int x = 1;" ++ mainWrapperSuffix :=
  ⟨(ensureMainClass_spec "class Main \x7b\x7d").1 (by decide),
   (ensureMainClass_spec "int x = 1;").2 (by decide)⟩

/-- C5: a request whose `code` field is missing, not a string, the empty
string, or longer than 10,000 characters is answered with HTTP 400,
`success: false`, and no filesystem or process effect. -/
theorem validation_rejects (code : CodeField) (env : Env)
    (h : code = .missing ∨ code = .nonString ∨ code = .str "" ∨
         ∃ s, code = .str s ∧ 10000 < s.length) :
    (handler code env).status = 400 ∧
    (handler code env).body.lookup "success" = some (.b false) ∧
    (handler code env).effects = [] := by
  rcases h with rfl | rfl | rfl | ⟨s, rfl, hs⟩
  · exact ⟨rfl, rfl, rfl⟩
  · exact ⟨rfl, rfl, rfl⟩
  · exact ⟨rfl, rfl, rfl⟩
  · have hs0 : ¬(s = "") := by
      intro h0
      rw [h0] at hs
      simp at hs
    simp only [handler]
    rw [if_neg hs0, if_pos hs]
    exact ⟨rfl, rfl, rfl⟩

/-- Witness for C5: the request with no `code` field. -/
theorem validation_rejects_witness :
    (handler .missing env0).status = 400 ∧
    (handler .missing env0).body.lookup "success" = some (.b false) ∧
    (handler .missing env0).effects = [] :=
  validation_rejects .missing env0 (Or.inl rfl)

/-- C4: a source text matching any denylisted pattern is answered with HTTP
400 and `success: false`, with no file written and no process spawned (the
scan `containsMaliciousCode` itself is a pure Lean function of the text). -/
theorem securityFilter_rejects (s : String) (env : Env)
    (h : containsMaliciousCode s = true) :
    (handler (.str s) env).status = 400 ∧
    (handler (.str s) env).body.lookup "success" = some (.b false) ∧
    (handler (.str s) env).effects = [] := by
  simp only [handler]
  by_cases h0 : s = ""
  · rw [if_pos h0]
    exact ⟨rfl, rfl, rfl⟩
  · rw [if_neg h0]
    by_cases h1 : 10000 < s.length
    · rw [if_pos h1]
      exact ⟨rfl, rfl, rfl⟩
    · rw [if_neg h1, if_pos h]
      exact ⟨rfl, rfl, rfl⟩

/-- Witness for C4: a denylisted `System.exit(` call is rejected. -/
theorem securityFilter_rejects_witness :
    (handler (.str "System.exit(0);") env0).status = 400 ∧
    (handler (.str "System.exit(0);") env0).body.lookup "success" = some (.b false) ∧
    (handler (.str "System.exit(0);") env0).effects = [] :=
  securityFilter_rejects "System.exit(0);" env0 (by decide)

theorem bool_eq_false {b : Bool} (h : ¬ b = true) : b = false := by
  cases b
  · rfl
  · exact absurd rfl h

/-- Validation passed: the route runs the try block. -/
theorem handler_valid (s : String) (env : Env) (h0 : ¬ s = "")
    (h1 : ¬ 10000 < s.length) (h2 : containsMaliciousCode s = false) :
    handler (.str s) env = tryBlock s env := by
  simp only [handler]
  rw [if_neg h0, if_neg h1, h2]
  simp

theorem compileJavaResolve_none {cb : CompileCb} (h : cb.error = none) :
    compileJavaResolve cb = { success := true, errText := "" } := by
  unfold compileJavaResolve
  rw [h]

theorem compileJavaResolve_some {cb : CompileCb} {msg : String}
    (h : cb.error = some msg) :
    compileJavaResolve cb =
      { success := false,
        errText := if cb.stderr ≠ "" then cb.stderr
                   else if cb.stdout ≠ "" then cb.stdout else msg } := by
  unfold compileJavaResolve
  rw [h]

/-- Node never emits a `'timeout'` event, timeout kill or not. -/
theorem childProcessEvents_eq (s : ExecScenario) :
    childProcessEvents s = ["spawn", "exit", "close"] := by
  unfold childProcessEvents
  split <;> rfl

/-- `executeJava` always resolves from the exec callback: output
`stdout || stderr` and `timedOut := false`, whatever the scenario. -/
theorem executeJava_eq (s : ExecScenario) :
    executeJava s =
      { output := if s.stdout ≠ "" then s.stdout else s.stderr,
        timedOut := false } := by
  unfold executeJava
  rw [childProcessEvents_eq]
  rfl

/-- Compile-failure branch of the try block. -/
theorem tryBlock_compileFail (s : String) (env : Env) (h3 : env.writeThrows = false)
    {msg : String} (h4 : env.compileCb.error = some msg) :
    tryBlock s env =
      { status := 200,
        body := [("success", .b false),
                 ("output", .s (formatCompilationError
                    (if env.compileCb.stderr ≠ "" then env.compileCb.stderr
                     else if env.compileCb.stdout ≠ "" then env.compileCb.stdout
                     else msg))),
                 ("executionTime", .n env.elapsedMs)],
        effects := [Effect.write (javaFilePathOf env) (ensureMainClass s),
                    Effect.spawn (compileCommand (javaFilePathOf env)),
                    Effect.unlink (javaFilePathOf env)] } := by
  unfold tryBlock
  rw [h3, compileJavaResolve_some h4]
  simp

/-- Exception-at-execution branch of the try block: the 500 response, with
no cleanup effect. -/
theorem tryBlock_execThrows (s : String) (env : Env) (h3 : env.writeThrows = false)
    (h4 : env.compileCb.error = none) (h5 : env.execThrows = true) :
    tryBlock s env =
      { status := 500, body := serverErrorBody env.execErrMsg,
        effects := [Effect.write (javaFilePathOf env) (ensureMainClass s),
                    Effect.spawn (compileCommand (javaFilePathOf env)),
                    Effect.spawn (execCommand (requestFilename env))] } := by
  unfold tryBlock
  rw [h3, compileJavaResolve_none h4, h5]
  simp

/-- Execution-completed branch of the try block (the only reachable one after
a successful compile without exception, since `executeJava` never resolves
`timedOut := true`). -/
theorem tryBlock_execOk (s : String) (env : Env) (h3 : env.writeThrows = false)
    (h4 : env.compileCb.error = none) (h5 : env.execThrows = false) :
    tryBlock s env =
      { status := 200,
        body := [("success", .b true),
                 ("output", .s (if env.execScenario.stdout ≠ "" then
                                  env.execScenario.stdout
                                else env.execScenario.stderr)),
                 ("executionTime", .n env.elapsedMs)],
        effects := [Effect.write (javaFilePathOf env) (ensureMainClass s),
                    Effect.spawn (compileCommand (javaFilePathOf env)),
                    Effect.spawn (execCommand (requestFilename env)),
                    Effect.unlink (javaFilePathOf env),
                    Effect.unlink (classFilePathOf env)] } := by
  unfold tryBlock
  rw [h3, compileJavaResolve_none h4, h5, executeJava_eq]
  simp

/-- C9: after a Reaper sweep at time `now`, an entry of the scratch directory
remains if and only if it still existed at stat time and its age does not
exceed `maxAge` (5 minutes); in particular a stale entry is removed, a fresh
one is retained, and an entry that vanished between listing and stat is
skipped without error (the sweep is total). -/
theorem reaper_spec (now : Nat) (entries : List TempEntry) (e : TempEntry)
    (he : e ∈ entries) :
    e ∈ cleanupTempFiles now entries ↔
      e.present = true ∧ ¬(maxAgeMs < now - e.mtimeMs) := by
  unfold cleanupTempFiles sweepRemoves
  rw [List.mem_filter]
  by_cases hp : e.present
  · by_cases hq : maxAgeMs < now - e.mtimeMs
    · simp [hp, hq, he]
    · simp [hp, hq, he]
  · simp [Bool.eq_false_iff.mpr hp, he]

/-- Witness for C9: on `reaperEntries` at `now = 1000000`, the fresh entry is
retained and the stale entry is removed. -/
theorem reaper_spec_witness :
    ({ name := "Main_2_b.java", mtimeMs := 900000, present := true } : TempEntry) ∈
      cleanupTempFiles 1000000 reaperEntries ∧
    ({ name := "Main_1_a.java", mtimeMs := 0, present := true } : TempEntry) ∉
      cleanupTempFiles 1000000 reaperEntries := by
  constructor
  · exact (reaper_spec 1000000 reaperEntries _ (by decide)).mpr ⟨rfl, by decide⟩
  · intro hmem
    have h := (reaper_spec 1000000 reaperEntries _ (by decide)).mp hmem
    exact absurd h.2 (by decide)

/-- C10: an execution that completes before the timeout is reported with
`success: true` whatever its exit status (the callback ignores `error`), and
the output is the process's stdout if non-empty, otherwise its stderr. -/
theorem completed_run_reported_success (s : String) (env : Env)
    (h0 : ¬ s = "") (h1 : s.length ≤ 10000) (h2 : containsMaliciousCode s = false)
    (h3 : env.writeThrows = false) (h4 : env.compileCb.error = none)
    (h5 : env.execThrows = false)
    (_h6 : env.execScenario.durationMs ≤ executionTimeoutMs) :
    (handler (.str s) env).status = 200 ∧
    (handler (.str s) env).body.lookup "success" = some (.b true) ∧
    (handler (.str s) env).body.lookup "output" =
      some (.s (if env.execScenario.stdout ≠ "" then env.execScenario.stdout
                else env.execScenario.stderr)) := by
  have h1' : ¬ 10000 < s.length := by omega
  rw [handler_valid s env h0 h1' h2, tryBlock_execOk s env h3 h4 h5]
  exact ⟨rfl, rfl, rfl⟩

/-- Witness for C10: a program that crashes at runtime (non-zero exit, empty
stdout, a stack trace on stderr) is reported as a success whose output is the
error text. -/
theorem completed_run_reported_success_witness :
    (handler (.str "int y = 2;") envCrash).status = 200 ∧
    (handler (.str "int y = 2;") envCrash).body.lookup "success" = some (.b true) ∧
    (handler (.str "int y = 2;") envCrash).body.lookup "output" =
      some (.s "Exception in thread \"main\" java.lang.ArithmeticException: / by zero") := by
  have h := completed_run_reported_success "int y = 2;" envCrash
    (by decide) (by decide) (by decide) rfl rfl rfl (by decide)
  exact ⟨h.1, h.2.1, h.2.2⟩

/-- C7 counterexample: the 400 response for a missing `code` field has no
`executionTime` field, so not every response has the shape of the 200
response. -/
theorem response_shape_counterexample :
    (handler .missing env0).status = 400 ∧
    ((handler .missing env0).body.map Prod.fst).contains "executionTime" = false :=
  ⟨rfl, rfl⟩

/-- C7 amended: every response contains `success` and `output`; a response
contains `executionTime` (measured from request receipt) exactly when its
status is 200; the 400 and 500 responses carry an `error` field instead. -/
theorem response_shape (code : CodeField) (env : Env) :
    ((handler code env).body.map Prod.fst).contains "success" = true ∧
    ((handler code env).body.map Prod.fst).contains "output" = true ∧
    (((handler code env).body.map Prod.fst).contains "executionTime" = true ↔
      (handler code env).status = 200) ∧
    ((handler code env).status ≠ 200 →
      ((handler code env).body.map Prod.fst).contains "error" = true) := by
  cases code with
  | missing =>
    exact ⟨rfl, rfl,
      iff_of_false (show ¬(false = true) by decide) (show ¬((400 : Nat) = 200) by decide),
      fun _ => rfl⟩
  | nonString =>
    exact ⟨rfl, rfl,
      iff_of_false (show ¬(false = true) by decide) (show ¬((400 : Nat) = 200) by decide),
      fun _ => rfl⟩
  | str s =>
    by_cases h0 : s = ""
    · have he : handler (.str s) env = { status := 400, body := noCodeBody, effects := [] } := by
        simp only [handler]
        rw [if_pos h0]
      rw [he]
      exact ⟨rfl, rfl,
        iff_of_false (show ¬(false = true) by decide) (show ¬((400 : Nat) = 200) by decide),
        fun _ => rfl⟩
    · by_cases h1 : 10000 < s.length
      · have he : handler (.str s) env = { status := 400, body := tooLongBody, effects := [] } := by
          simp only [handler]
          rw [if_neg h0, if_pos h1]
        rw [he]
        exact ⟨rfl, rfl,
          iff_of_false (show ¬(false = true) by decide) (show ¬((400 : Nat) = 200) by decide),
          fun _ => rfl⟩
      · by_cases h2 : containsMaliciousCode s
        · have he : handler (.str s) env = { status := 400, body := maliciousBody, effects := [] } := by
            simp only [handler]
            rw [if_neg h0, if_neg h1, if_pos h2]
          rw [he]
          exact ⟨rfl, rfl,
            iff_of_false (show ¬(false = true) by decide) (show ¬((400 : Nat) = 200) by decide),
            fun _ => rfl⟩
        · rw [handler_valid s env h0 h1 (bool_eq_false h2)]
          by_cases h3 : env.writeThrows
          · have he : tryBlock s env =
                { status := 500, body := serverErrorBody env.writeErrMsg, effects := [] } := by
              unfold tryBlock
              rw [if_pos h3]
            rw [he]
            exact ⟨rfl, rfl,
              iff_of_false (show ¬(false = true) by decide) (show ¬((500 : Nat) = 200) by decide),
              fun _ => rfl⟩
          · cases henv : env.compileCb.error with
            | some msg =>
              rw [tryBlock_compileFail s env (bool_eq_false h3) henv]
              exact ⟨rfl, rfl, iff_of_true rfl rfl, fun hne => absurd rfl hne⟩
            | none =>
              by_cases h5 : env.execThrows
              · rw [tryBlock_execThrows s env (bool_eq_false h3) henv h5]
                exact ⟨rfl, rfl,
                  iff_of_false (show ¬(false = true) by decide) (show ¬((500 : Nat) = 200) by decide),
                  fun _ => rfl⟩
              · rw [tryBlock_execOk s env (bool_eq_false h3) henv (bool_eq_false h5)]
                exact ⟨rfl, rfl, iff_of_true rfl rfl, fun hne => absurd rfl hne⟩

/-- C1 counterexample: a valid request followed by an unexpected exception at
the execution step reaches the Written state (a write effect is recorded),
yet the route answers 500 with no cleanup call at all — the catch block
(server.js lines 136–145) deletes nothing. -/
theorem cleanup_counterexample :
    (handler (.str "int x = 1;") envExc).status = 500 ∧
    (handler (.str "int x = 1;") envExc).effects.any isWriteEffect = true ∧
    (handler (.str "int x = 1;") envExc).effects.any isUnlinkEffect = false := by
  decide

/-- C1 amended: on the success, compile-failure and timeout exit paths every
file created for the request is passed to `cleanupFile` before the response
(the source file always; the expected class path whenever compilation
succeeded); the internal-error path is excluded — there the catch block
responds without cleanup. -/
theorem cleanup_on_non_exception_paths (s : String) (env : Env)
    (h0 : ¬ s = "") (h1 : s.length ≤ 10000) (h2 : containsMaliciousCode s = false)
    (h3 : env.writeThrows = false) (h5 : env.execThrows = false) :
    Effect.unlink (javaFilePathOf env) ∈ (handler (.str s) env).effects ∧
    (env.compileCb.error = none →
      Effect.unlink (classFilePathOf env) ∈ (handler (.str s) env).effects) := by
  have h1' : ¬ 10000 < s.length := by omega
  rw [handler_valid s env h0 h1' h2]
  cases henv : env.compileCb.error with
  | some msg =>
    rw [tryBlock_compileFail s env h3 henv]
    refine ⟨by simp, ?_⟩
    intro hnone
    exact Option.noConfusion hnone
  | none =>
    rw [tryBlock_execOk s env h3 henv h5]
    exact ⟨by simp, fun _ => by simp⟩

/-- Witness for C1 (amended): on a successful run both artifact paths are
cleaned up. -/
theorem cleanup_on_non_exception_paths_witness :
    Effect.unlink (javaFilePathOf env0) ∈ (handler (.str "int x = 1;") env0).effects ∧
    Effect.unlink (classFilePathOf env0) ∈ (handler (.str "int x = 1;") env0).effects := by
  have h := cleanup_on_non_exception_paths "int x = 1;" env0
    (by decide) (by decide) (by decide) rfl rfl
  exact ⟨h.1, h.2 rfl⟩

/-- C2: a compiled program still running at the 5 s bound is killed by Node's
`options.timeout` mechanism, but no `'timeout'` event exists for the listener
`executeJava` registers, so the run resolves from the exec callback with
`timedOut := false` and the route reports `success: true` — the timeout
response branch is unreachable. -/
theorem timeout_outcome_misreported :
    execKilledByTimeout loopScenario = true ∧
    (childProcessEvents loopScenario).contains "timeout" = false ∧
    (executeJava loopScenario).timedOut = false ∧
    (handler (.str loopSnippet) envLoop).status = 200 ∧
    (handler (.str loopSnippet) envLoop).body.lookup "success" = some (.b true) := by
  decide

set_option maxRecDepth 16384 in
/-- C3: on the spec's example input (bare statements), the route writes a
compilation unit declaring `public class Main` into the differently named
file `Main_<ts>_<rand>.java` and asks the runner for the class
`Main_<ts>_<rand>`, which can never equal the declared class name `Main`;
`javac` rejects a public class whose name differs from its file's base name,
and `java` is asked for a class the unit does not declare, so the pipeline
cannot return `success: true` with output `hi` for this input. -/
theorem entry_point_classname_mismatch (env : Env) (h3 : env.writeThrows = false) :
    Effect.write (javaFilePathOf env)
        (mainWrapperPrefix ++ helloSnippet ++ mainWrapperSuffix) ∈
      (handler (.str helloSnippet) env).effects ∧
    containsSub (mainWrapperPrefix ++ helloSnippet ++ mainWrapperSuffix)
        "public class Main" = true ∧
    requestFilename env ≠ "Main" ∧
    (env.compileCb.error = none → env.execThrows = false →
      Effect.spawn (execCommand (requestFilename env)) ∈
        (handler (.str helloSnippet) env).effects) := by
  have hv : handler (.str helloSnippet) env = tryBlock helloSnippet env :=
    handler_valid _ env (by decide) (by decide) (by decide)
  have hwrap : ensureMainClass helloSnippet =
      mainWrapperPrefix ++ helloSnippet ++ mainWrapperSuffix := by decide
  refine ⟨?_, by decide, ?_, ?_⟩
  · rw [hv, ← hwrap]
    cases henv : env.compileCb.error with
    | some msg =>
      rw [tryBlock_compileFail _ _ h3 henv]
      simp
    | none =>
      by_cases h5 : env.execThrows
      · rw [tryBlock_execThrows _ _ h3 henv h5]
        simp
      · rw [tryBlock_execOk _ _ h3 henv (bool_eq_false h5)]
        simp
  · unfold requestFilename
    intro h
    have hlen := congrArg String.length h
    simp only [String.length_append] at hlen
    rw [show "Main_".length = 5 from rfl, show "_".length = 1 from rfl,
        show "Main".length = 4 from rfl] at hlen
    omega
  · intro h4 h5
    rw [hv, tryBlock_execOk _ _ h3 h4 h5]
    simp

/-! ### C6 development: the formatted compiler output retains no `/tmp/` path -/

/-- `startsTmpPath` in solved form. -/
theorem startsTmpPath_iff (l : List Char) :
    startsTmpPath l = true ↔
      ∃ e t, l = '/' :: 't' :: 'm' :: 'p' :: '/' :: e :: t ∧ pathChar e = true := by
  constructor
  · intro h
    unfold startsTmpPath at h
    rw [Bool.and_eq_true, decide_eq_true_eq] at h
    obtain ⟨h1, h2⟩ := h
    rcases l with _ | ⟨a, _ | ⟨b, _ | ⟨c, _ | ⟨d, _ | ⟨e0, rest⟩⟩⟩⟩⟩ <;>
      simp only [tmpPat, List.take_succ_cons, List.take_zero, List.take_nil,
        List.cons.injEq, and_true] at h1
    · exact absurd h1 (by simp)
    · exact absurd h1 (by simp)
    · exact absurd h1 (by simp)
    · exact absurd h1 (by simp)
    · exact absurd h1 (by simp)
    · obtain ⟨ha, hb, hc, hd, he0⟩ := h1
      subst ha; subst hb; subst hc; subst hd; subst he0
      cases hr : rest with
      | nil => rw [hr] at h2; simp at h2
      | cons e t =>
        rw [hr] at h2
        exact ⟨e, t, rfl, h2⟩
  · rintro ⟨e, t, rfl, he⟩
    unfold startsTmpPath
    simp [tmpPat, he]

theorem startsTmpPath_false_of_head {c : Char} (l : List Char) (hc : c ≠ '/') :
    startsTmpPath (c :: l) = false := by
  apply bool_eq_false
  intro h
  obtain ⟨e, t, heq, -⟩ := (startsTmpPath_iff _).mp h
  injection heq with h1 _
  exact hc h1

/-- Prepending slash-free text does not add or hide a path occurrence. -/
theorem hasTmpPath_append_of_no_slash (a z : List Char)
    (ha : ∀ c ∈ a, c ≠ '/') :
    hasTmpPath (a ++ z) = hasTmpPath z := by
  induction a with
  | nil => rfl
  | cons c a ih =>
    have hc : c ≠ '/' := ha c (List.mem_cons_self c a)
    rw [List.cons_append]
    show (startsTmpPath (c :: (a ++ z)) || hasTmpPath (a ++ z)) = hasTmpPath z
    rw [startsTmpPath_false_of_head _ hc,
        ih (fun x hx => ha x (List.mem_cons_of_mem c hx))]
    simp

theorem hasTmpPath_cons_false {c : Char} {l : List Char}
    (h : hasTmpPath (c :: l) = false) : hasTmpPath l = false := by
  have h' : (startsTmpPath (c :: l) || hasTmpPath l) = false := h
  exact (Bool.or_eq_false_iff.mp h').2

theorem startsTmpPath_false_of_hasTmpPath {l : List Char}
    (h : hasTmpPath l = false) (hne : l ≠ []) : startsTmpPath l = false := by
  cases l with
  | nil => exact absurd rfl hne
  | cons c l =>
    have h' : (startsTmpPath (c :: l) || hasTmpPath l) = false := h
    exact (Bool.or_eq_false_iff.mp h').1

theorem hasTmpPath_drop (l : List Char) (n : Nat) (h : hasTmpPath l = false) :
    hasTmpPath (l.drop n) = false := by
  induction n generalizing l with
  | zero => simpa using h
  | succ n ih =>
    cases l with
    | nil => simpa using h
    | cons c l => exact ih l (hasTmpPath_cons_false h)

/-- A non-`'M'` head of `replaceTmpPaths`'s output is a copied input head. -/
theorem head_replaceTmpPaths {l : List Char} {d : Char} {t : List Char}
    (h : replaceTmpPaths l = d :: t) (hd : d ≠ 'M') :
    ∃ l2, l = d :: l2 ∧ t = replaceTmpPaths l2 ∧
      startsTmpPath (d :: l2) = false := by
  cases l with
  | nil =>
    simp only [replaceTmpPaths] at h
    exact List.noConfusion h
  | cons c l =>
    simp only [replaceTmpPaths] at h
    by_cases hs : startsTmpPath (c :: l)
    · rw [if_pos hs] at h
      exfalso
      apply hd
      have hm : mainJavaL ++ replaceTmpPaths ((l.drop 4).dropWhile pathChar) =
          'M' :: ("ain.java".toList ++
            replaceTmpPaths ((l.drop 4).dropWhile pathChar)) := rfl
      rw [hm] at h
      injection h with h1 _
      exact h1.symm
    · rw [if_neg hs] at h
      injection h with h1 h2
      subst h1
      exact ⟨l, rfl, h2.symm, bool_eq_false hs⟩

/-- If a path match does not start at `'/' :: l`, it does not start at
`'/' :: replaceTmpPaths l` either. -/
theorem startsTmpPath_cons_replaceTmpPaths {c : Char} {l : List Char}
    (hs : startsTmpPath (c :: l) = false) :
    startsTmpPath (c :: replaceTmpPaths l) = false := by
  by_cases hc : c = '/'
  · subst hc
    apply bool_eq_false
    intro hb
    obtain ⟨e, t, heq, he⟩ := (startsTmpPath_iff _).mp hb
    have hR : replaceTmpPaths l = 't' :: 'm' :: 'p' :: '/' :: e :: t := by
      injection heq
    obtain ⟨l1, hl1, ht1, -⟩ := head_replaceTmpPaths hR (by decide)
    obtain ⟨l2, hl2, ht2, -⟩ := head_replaceTmpPaths ht1.symm (by decide)
    obtain ⟨l3, hl3, ht3, -⟩ := head_replaceTmpPaths ht2.symm (by decide)
    obtain ⟨l4, hl4, ht4, -⟩ := head_replaceTmpPaths ht3.symm (by decide)
    cases l4 with
    | nil =>
      simp only [replaceTmpPaths] at ht4
      exact List.noConfusion ht4
    | cons f l5 =>
      by_cases hsf : startsTmpPath (f :: l5)
      · obtain ⟨e2, t2, heq2, -⟩ := (startsTmpPath_iff _).mp hsf
        have hf : f = '/' := by injection heq2
        have hcon : startsTmpPath ('/' :: l) = true := by
          rw [hl1, hl2, hl3, hl4]
          exact (startsTmpPath_iff _).mpr ⟨f, l5, rfl, by rw [hf]; decide⟩
        rw [hcon] at hs
        exact Bool.noConfusion hs
      · have hcopy : replaceTmpPaths (f :: l5) = f :: replaceTmpPaths l5 := by
          simp only [replaceTmpPaths]
          rw [if_neg hsf]
        rw [hcopy] at ht4
        have hef : e = f := by injection ht4
        have hcon : startsTmpPath ('/' :: l) = true := by
          rw [hl1, hl2, hl3, hl4]
          exact (startsTmpPath_iff _).mpr ⟨f, l5, rfl, hef ▸ he⟩
        rw [hcon] at hs
        exact Bool.noConfusion hs
  · exact startsTmpPath_false_of_head _ hc

/-- The path-stripping pass removes every `/tmp/...` path occurrence. -/
theorem hasTmpPath_replaceTmpPaths (l : List Char) :
    hasTmpPath (replaceTmpPaths l) = false := by
  induction l using replaceTmpPaths.induct with
  | case1 => simp only [replaceTmpPaths]; rfl
  | case2 c l hs ih =>
    simp only [replaceTmpPaths]
    rw [if_pos hs, hasTmpPath_append_of_no_slash _ _ (by decide)]
    exact ih
  | case3 c l hs ih =>
    simp only [replaceTmpPaths]
    rw [if_neg hs]
    show (startsTmpPath (c :: replaceTmpPaths l) ||
      hasTmpPath (replaceTmpPaths l)) = false
    rw [ih, startsTmpPath_cons_replaceTmpPaths (bool_eq_false hs)]
    rfl

/-- A character the regex class `[^:\s]` rejects is `':'` or whitespace. -/
theorem pathChar_false_mem {e : Char} (h : pathChar e = false) :
    e ∈ badPathChars := by
  have h' : (e == ':' || jsWhitespace e) = true := by
    revert h
    unfold pathChar
    cases (e == ':' || jsWhitespace e) <;> simp
  have h'' : e = ':' ∨ jsWhitespace e = true := by simpa using h'
  rcases h'' with h1 | h2
  · rw [h1]
    exact List.mem_cons_self _ _
  · exact List.mem_cons_of_mem _ (List.mem_of_elem_eq_true h2)

/-- No character matched case-insensitively by the `e` of `error:` can end a
path match prematurely. -/
theorem pathChar_of_ciEq_e : ∀ e, ciEq 'e' e = true → pathChar e = true := by
  intro e he
  by_contra hb
  have hmem := pathChar_false_mem (bool_eq_false hb)
  have hall : ∀ x ∈ badPathChars, ciEq 'e' x = false := by decide
  rw [hall e hmem] at he
  exact Bool.noConfusion he

theorem pathChar_of_ciEq_w : ∀ e, ciEq 'w' e = true → pathChar e = true := by
  intro e he
  by_contra hb
  have hmem := pathChar_false_mem (bool_eq_false hb)
  have hall : ∀ x ∈ badPathChars, ciEq 'w' x = false := by decide
  rw [hall e hmem] at he
  exact Bool.noConfusion he

theorem pathChar_of_csEq_M : ∀ e, csEq 'M' e = true → pathChar e = true := by
  intro e he
  by_contra hb
  have hmem := pathChar_false_mem (bool_eq_false hb)
  have hall : ∀ x ∈ badPathChars, csEq 'M' x = false := by decide
  rw [hall e hmem] at he
  exact Bool.noConfusion he

/-- A head of `replacePat`'s output is a copied input head or the head of the
replacement at a matched position. -/
theorem head_replacePat {eqc : Char → Char → Bool} {p0 : Char} {ps : List Char}
    {r0 : Char} {rs : List Char} {l : List Char} {d : Char} {t : List Char}
    (h : replacePat eqc (p0 :: ps) (r0 :: rs) l = d :: t) :
    (∃ l2, l = d :: l2 ∧ t = replacePat eqc (p0 :: ps) (r0 :: rs) l2 ∧
       matchesPat eqc (p0 :: ps) (d :: l2) = false) ∨
    (d = r0 ∧ ∃ f l2, l = f :: l2 ∧ eqc p0 f = true) := by
  cases l with
  | nil =>
    simp only [replacePat] at h
    exact List.noConfusion h
  | cons c l =>
    simp only [replacePat] at h
    by_cases hm : matchesPat eqc (p0 :: ps) (c :: l)
    · rw [if_pos hm] at h
      rw [List.cons_append] at h
      injection h with h1 _
      right
      refine ⟨h1.symm, c, l, rfl, ?_⟩
      have hm' : (eqc p0 c && matchesPat eqc ps l) = true := hm
      have hm2 : eqc p0 c = true ∧ matchesPat eqc ps l = true := by simpa using hm'
      exact hm2.1
    · rw [if_neg hm] at h
      injection h with h1 h2
      subst h1
      exact Or.inl ⟨l, rfl, h2.symm, bool_eq_false hm⟩

/-- If the input has no path occurrence, a replacement pass whose replacement
head is none of `t`, `m`, `p`, `/` and whose pattern head only matches
path-extending characters cannot create a path match right after a `c`. -/
theorem startsTmpPath_cons_replacePat {eqc : Char → Char → Bool} {p0 : Char}
    {ps : List Char} {r0 : Char} {rs : List Char} {c : Char} {l : List Char}
    (hrep4 : r0 ≠ 't' ∧ r0 ≠ 'm' ∧ r0 ≠ 'p' ∧ r0 ≠ '/')
    (hp0 : ∀ e, eqc p0 e = true → pathChar e = true)
    (hl : hasTmpPath (c :: l) = false) :
    startsTmpPath (c :: replacePat eqc (p0 :: ps) (r0 :: rs) l) = false := by
  apply bool_eq_false
  intro hb
  obtain ⟨e, t, heq, he⟩ := (startsTmpPath_iff _).mp hb
  injection heq with hc hR
  have hsf : startsTmpPath (c :: l) = false :=
    (Bool.or_eq_false_iff.mp
      (hl : (startsTmpPath (c :: l) || hasTmpPath l) = false)).1
  obtain ⟨l1, hl1, ht1, -⟩ :=
    (head_replacePat hR).resolve_right (fun hx => (hrep4.1 hx.1.symm).elim)
  obtain ⟨l2, hl2, ht2, -⟩ :=
    (head_replacePat ht1.symm).resolve_right (fun hx => (hrep4.2.1 hx.1.symm).elim)
  obtain ⟨l3, hl3, ht3, -⟩ :=
    (head_replacePat ht2.symm).resolve_right (fun hx => (hrep4.2.2.1 hx.1.symm).elim)
  obtain ⟨l4, hl4, ht4, -⟩ :=
    (head_replacePat ht3.symm).resolve_right (fun hx => (hrep4.2.2.2 hx.1.symm).elim)
  rcases head_replacePat ht4.symm with ⟨l5, hl5, ht5, -⟩ | ⟨-, f, l5, hl5, hef⟩
  · have hcon : startsTmpPath (c :: l) = true := by
      rw [hc, hl1, hl2, hl3, hl4, hl5]
      exact (startsTmpPath_iff _).mpr ⟨e, l5, rfl, he⟩
    rw [hcon] at hsf
    exact Bool.noConfusion hsf
  · have hcon : startsTmpPath (c :: l) = true := by
      rw [hc, hl1, hl2, hl3, hl4, hl5]
      exact (startsTmpPath_iff _).mpr ⟨f, l5, rfl, hp0 f hef⟩
    rw [hcon] at hsf
    exact Bool.noConfusion hsf

/-- A replacement pass with a slash-free replacement (whose head is none of
`t`, `m`, `p`, `/`) and a pattern starting on a path-extending character
preserves the absence of path occurrences. -/
theorem hasTmpPath_replacePat (eqc : Char → Char → Bool) (p0 : Char)
    (ps : List Char) (r0 : Char) (rs : List Char)
    (hrep : ∀ c ∈ r0 :: rs, c ≠ '/')
    (hrep4 : r0 ≠ 't' ∧ r0 ≠ 'm' ∧ r0 ≠ 'p' ∧ r0 ≠ '/')
    (hp0 : ∀ e, eqc p0 e = true → pathChar e = true) :
    ∀ l, hasTmpPath l = false →
      hasTmpPath (replacePat eqc (p0 :: ps) (r0 :: rs) l) = false := by
  intro l
  induction l using replacePat.induct eqc (p0 :: ps) (r0 :: rs) with
  | case1 =>
    intro _
    simp only [replacePat]
    rfl
  | case2 c l hm ih =>
    intro hl
    simp only [replacePat]
    rw [if_pos hm, hasTmpPath_append_of_no_slash _ _ hrep]
    exact ih (hasTmpPath_drop _ _ (hasTmpPath_cons_false hl))
  | case3 c l hm ih =>
    intro hl
    simp only [replacePat]
    rw [if_neg hm]
    show (startsTmpPath (c :: replacePat eqc (p0 :: ps) (r0 :: rs) l) ||
      hasTmpPath (replacePat eqc (p0 :: ps) (r0 :: rs) l)) = false
    rw [ih (hasTmpPath_cons_false hl),
        startsTmpPath_cons_replacePat hrep4 hp0 hl]
    rfl

/-- Appending text that begins with a whitespace-like character (not `t`,
`m`, `p` or `/`) cannot complete a path match across the boundary. -/
theorem startsTmpPath_append_safe (l : List Char) {y : Char} (Y' : List Char)
    (h1 : pathChar y = false)
    (h2 : y ≠ 't' ∧ y ≠ 'm' ∧ y ≠ 'p' ∧ y ≠ '/')
    (hl : startsTmpPath l = false) :
    startsTmpPath (l ++ y :: Y') = false := by
  obtain ⟨hyt, hym, hyp2, hys⟩ := h2
  apply bool_eq_false
  intro hb
  obtain ⟨e, t, heq, he⟩ := (startsTmpPath_iff _).mp hb
  rcases l with _ | ⟨a, _ | ⟨b, _ | ⟨c, _ | ⟨d, _ | ⟨f, rest⟩⟩⟩⟩⟩
  · rw [List.nil_append] at heq
    injection heq with hy _
    exact hys hy
  · rw [List.cons_append, List.nil_append] at heq
    injection heq with _ heq
    injection heq with hy _
    exact hyt hy
  · simp only [List.cons_append, List.nil_append] at heq
    injection heq with _ heq
    injection heq with _ heq
    injection heq with hy _
    exact hym hy
  · simp only [List.cons_append, List.nil_append] at heq
    injection heq with _ heq
    injection heq with _ heq
    injection heq with _ heq
    injection heq with hy _
    exact hyp2 hy
  · simp only [List.cons_append, List.nil_append] at heq
    injection heq with _ heq
    injection heq with _ heq
    injection heq with _ heq
    injection heq with _ heq
    injection heq with hy _
    exact hys hy
  · simp only [List.cons_append] at heq
    injection heq with ha heq
    injection heq with hb2 heq
    injection heq with hc2 heq
    injection heq with hd2 heq
    injection heq with hf heq
    subst ha; subst hb2; subst hc2; subst hd2; subst hf
    cases rest with
    | nil =>
      rw [List.nil_append] at heq
      injection heq with hy _
      rw [hy, he] at h1
      exact Bool.noConfusion h1
    | cons g r2 =>
      rw [List.cons_append] at heq
      injection heq with hg _
      have hcon : startsTmpPath ('/' :: 't' :: 'm' :: 'p' :: '/' :: g :: r2) = true :=
        (startsTmpPath_iff _).mpr ⟨g, r2, rfl, by rw [hg]; exact he⟩
      rw [hcon] at hl
      exact Bool.noConfusion hl

theorem hasTmpPath_append_right (X : List Char) {y : Char} (Y' : List Char)
    (h1 : pathChar y = false)
    (h2 : y ≠ 't' ∧ y ≠ 'm' ∧ y ≠ 'p' ∧ y ≠ '/')
    (hX : hasTmpPath X = false) (hY : hasTmpPath (y :: Y') = false) :
    hasTmpPath (X ++ y :: Y') = false := by
  induction X with
  | nil => simpa using hY
  | cons c X ih =>
    rw [List.cons_append]
    show (startsTmpPath (c :: (X ++ y :: Y')) ||
      hasTmpPath (X ++ y :: Y')) = false
    have hX1 : startsTmpPath (c :: X) = false :=
      (Bool.or_eq_false_iff.mp
        (hX : (startsTmpPath (c :: X) || hasTmpPath X) = false)).1
    have hs : startsTmpPath (c :: (X ++ y :: Y')) = false :=
      startsTmpPath_append_safe (c :: X) Y' h1 ⟨h2.1, h2.2.1, h2.2.2.1, h2.2.2.2⟩ hX1
    rw [hs, ih (hasTmpPath_cons_false hX)]
    rfl

/-- C6: for every compiler error text, the formatted output returned to the
caller contains no scratch-directory path — no occurrence of `/tmp/` followed
by a path character survives `formatCompilationError`: the first pass
replaces every such path with the placeholder `Main.java`, and neither the
cosmetic passes nor the added header and tips can reintroduce one. -/
theorem formatCompilationError_no_tmp_path (err : String) :
    hasTmpPath (formatCompilationError err).toList = false := by
  show hasTmpPath (formatCompilationErrorL err.toList) = false
  unfold formatCompilationErrorL
  rw [List.append_assoc,
      hasTmpPath_append_of_no_slash headerL _ (by decide)]
  have htips : tipsL = '\n' ::
      "\n💡 Tips:\n• Check for missing semicolons\n• Ensure braces are balanced\n• Verify variable declarations\n• Check method signatures".toList := rfl
  rw [htips]
  refine hasTmpPath_append_right _ _ (by decide)
    ⟨by decide, by decide, by decide, by decide⟩ ?_ (by decide)
  have hM : "Main.java:".toList = 'M' :: "ain.java:".toList := rfl
  have hL : "Line ".toList = 'L' :: "ine ".toList := rfl
  rw [hM, hL]
  refine hasTmpPath_replacePat csEq 'M' _ 'L' _ (by decide)
    ⟨by decide, by decide, by decide, by decide⟩ pathChar_of_csEq_M _ ?_
  have hw1 : "warning:".toList = 'w' :: "arning:".toList := rfl
  have hw2 : "⚠️ Warning:".toList = '⚠' :: "️ Warning:".toList := rfl
  rw [hw1, hw2]
  refine hasTmpPath_replacePat ciEq 'w' _ '⚠' _ (by decide)
    ⟨by decide, by decide, by decide, by decide⟩ pathChar_of_ciEq_w _ ?_
  have he1 : "error:".toList = 'e' :: "rror:".toList := rfl
  have he2 : "❌ Error:".toList = '❌' :: " Error:".toList := rfl
  rw [he1, he2]
  refine hasTmpPath_replacePat ciEq 'e' _ '❌' _ (by decide)
    ⟨by decide, by decide, by decide, by decide⟩ pathChar_of_ciEq_e _ ?_
  exact hasTmpPath_replaceTmpPaths _

/-- Witness for C3: the mismatch on the benign environment. -/
theorem entry_point_classname_mismatch_witness :
    Effect.write (javaFilePathOf env0)
        (mainWrapperPrefix ++ helloSnippet ++ mainWrapperSuffix) ∈
      (handler (.str helloSnippet) env0).effects ∧
    requestFilename env0 ≠ "Main" ∧
    Effect.spawn (execCommand (requestFilename env0)) ∈
      (handler (.str helloSnippet) env0).effects := by
  have h := entry_point_classname_mismatch env0 rfl
  exact ⟨h.1, h.2.2.1, h.2.2.2 rfl rfl⟩

end JavaLab
